import Mathlib

/-!
Shallow embedding of the bitwarden-operator reconciliation controller
(src/src/main.rs).  Kubernetes API calls and the vault client are modelled
as explicit state passing over a cluster-state record, with an event trace
recording every external call in order.  Transient API failures are
injected through an oracle `fails : KubeOp → Bool`.
-/

namespace BwOperator

/-- OwnerReference as used in main.rs (k8s_openapi OwnerReference, only the
fields the program sets). -/
structure OwnerReference where
  api_version : String
  kind : String
  name : String
  uid : String
  block_owner_deletion : Option Bool
  controller : Option Bool
deriving DecidableEq, Repr

/-- ObjectMeta with the fields main.rs reads or writes. -/
structure ObjectMeta where
  name : Option String := none
  namespace_ : Option String := none
  deletion_timestamp : Option String := none
  finalizers : Option (List String) := none
  uid : Option String := none
  labels : Option (List (String × String)) := none
  owner_references : Option (List OwnerReference) := none
deriving DecidableEq, Repr

/-- Modelled from the spec: the BitwardenSecret custom-resource spec.  The
module crd is not under src/; the spec data model lists a vault item path
(string) and a target secret type tag, and main.rs reads spec.type_. -/
structure BitwardenSecretSpec where
  path : String
  type_ : String
deriving DecidableEq, Repr

/-- The BitwardenSecret custom resource (DesiredStateResource). -/
structure BitwardenSecret where
  metadata : ObjectMeta
  spec : BitwardenSecretSpec
deriving DecidableEq, Repr

/-- A core/v1 Secret with the fields main.rs sets. -/
structure Secret where
  metadata : ObjectMeta
  string_data : Option (List (String × String))
  type_ : Option String
deriving DecidableEq, Repr

/-- kube ResourceExt namespace accessor: the metadata namespace field. -/
def BitwardenSecret.namespace? (r : BitwardenSecret) : Option String :=
  r.metadata.namespace_

/-- kube ResourceExt name_any accessor: the metadata name, or the empty
string when absent. -/
def BitwardenSecret.name_any (r : BitwardenSecret) : String :=
  r.metadata.name.getD ""

/-- kube ResourceExt uid accessor. -/
def BitwardenSecret.uid? (r : BitwardenSecret) : Option String :=
  r.metadata.uid

/-- The scheduling directive returned by reconcile (kube runtime Action). -/
inductive Action where
  | requeue (secs : Nat)
  | await_change
deriving DecidableEq, Repr

/-- Abstract kube API error causes. -/
inductive KubeErr where
  | notFound
  | alreadyExists
  | transient
deriving DecidableEq, Repr

/-- The Error enum of main.rs: a wrapped kube error or a user input error. -/
inductive Error where
  | KubeError (source : KubeErr)
  | UserInputError (msg : String)
deriving DecidableEq, Repr

/-- Result of one reconcile invocation: the returned value, the returned
error, or an abnormal termination (a Rust panic, from expect). -/
inductive ReconcileResult where
  | ok (a : Action)
  | err (e : Error)
  | panicked (msg : String)
deriving DecidableEq, Repr

/-- The kube API operations the program issues, with their target. -/
inductive KubeOp where
  | patchBitwardenSecretFinalizers (ns name : String) (finalizers : Option (List String))
  | getBitwardenSecret (ns name : String)
  | createSecret (ns name : String)
  | getSecret (ns name : String)
  | deleteSecret (ns name : String)
deriving DecidableEq, Repr

/-- Externally visible events of one reconcile run, in call order. -/
inductive Event where
  | kube (op : KubeOp)
  | vaultFetch (path : String)
  | vaultReset
deriving DecidableEq, Repr

/-- Association-list lookup keyed by decidable equality. -/
def alistLookup {α β : Type} [DecidableEq α] (k : α) : List (α × β) → Option β
  | [] => none
  | (k2, v) :: rest => if k2 = k then some v else alistLookup k rest

/-- Remove every binding of a key from an association list. -/
def alistErase {α β : Type} [DecidableEq α] (k : α) : List (α × β) → List (α × β)
  | [] => []
  | (k2, v) :: rest => if k2 = k then alistErase k rest else (k2, v) :: alistErase k rest

/-- The cluster resource store: BitwardenSecret resources and core Secrets,
both keyed by (namespace, name). -/
structure ClusterState where
  resources : List ((String × String) × BitwardenSecret)
  secrets : List ((String × String) × Secret)
deriving DecidableEq, Repr

def lookupRes (st : ClusterState) (ns name : String) : Option BitwardenSecret :=
  alistLookup (ns, name) st.resources

def lookupSecret (st : ClusterState) (ns name : String) : Option Secret :=
  alistLookup (ns, name) st.secrets

def setRes (st : ClusterState) (ns name : String) (r : BitwardenSecret) : ClusterState :=
  { st with resources := ((ns, name), r) :: alistErase (ns, name) st.resources }

def setSecret (st : ClusterState) (ns name : String) (s : Secret) : ClusterState :=
  { st with secrets := ((ns, name), s) :: alistErase (ns, name) st.secrets }

def removeSecret (st : ClusterState) (ns name : String) : ClusterState :=
  { st with secrets := alistErase (ns, name) st.secrets }

/-- Result of one modelled kube API helper: the call result, the cluster
state after the call, and the events issued. -/
structure KubeRes (α : Type) where
  result : Except KubeErr α
  st : ClusterState
  trace : List Event
deriving Repr

/-- The finalizer token of main.rs. -/
def finalizerToken : String := "bitwardensecrets.tomjo.net/finalizer.secret"

/-- The effect of a merge patch on metadata.finalizers: set the field (a
null value removes it). -/
def setFinalizers (r : BitwardenSecret) (f : Option (List String)) : BitwardenSecret :=
  { r with metadata := { r.metadata with finalizers := f } }

/-- add_finalizer of main.rs: unconditionally issues a merge patch setting
metadata.finalizers to [finalizerToken]; no existence check, so the patch
fails (not found) when the resource is absent. -/
def add_finalizer (st : ClusterState) (fails : KubeOp → Bool) (name ns : String) :
    KubeRes BitwardenSecret :=
  let op := KubeOp.patchBitwardenSecretFinalizers ns name (some [finalizerToken])
  if fails op then ⟨.error .transient, st, [.kube op]⟩
  else
    match lookupRes st ns name with
    | none => ⟨.error .notFound, st, [.kube op]⟩
    | some r =>
      let r2 := setFinalizers r (some [finalizerToken])
      ⟨.ok r2, setRes st ns name r2, [.kube op]⟩

/-- delete_finalizer of main.rs: get_opt first; when the resource exists,
merge-patch metadata.finalizers to null (removing the field); when it does
not exist, succeed without patching. -/
def delete_finalizer (st : ClusterState) (fails : KubeOp → Bool) (name ns : String) :
    KubeRes Unit :=
  let gop := KubeOp.getBitwardenSecret ns name
  if fails gop then ⟨.error .transient, st, [.kube gop]⟩
  else
    match lookupRes st ns name with
    | some r =>
      let pop := KubeOp.patchBitwardenSecretFinalizers ns name none
      if fails pop then ⟨.error .transient, st, [.kube gop, .kube pop]⟩
      else
        let r2 := setFinalizers r none
        ⟨.ok (), setRes st ns name r2, [.kube gop, .kube pop]⟩
    | none => ⟨.ok (), st, [.kube gop]⟩

/-- create_secret of main.rs: builds the Secret with the given single owner
reference, labels, string data and type, and posts a create; the create
fails when a secret with that name already exists. -/
def create_secret (st : ClusterState) (fails : KubeOp → Bool) (owner_ref : OwnerReference)
    (name ns type_ : String) (secret_keys labels : List (String × String)) :
    KubeRes Secret :=
  let secret : Secret :=
    { metadata :=
        { name := some name
          namespace_ := some ns
          labels := some labels
          owner_references := some [owner_ref] }
      string_data := some secret_keys
      type_ := some type_ }
  let op := KubeOp.createSecret ns name
  if fails op then ⟨.error .transient, st, [.kube op]⟩
  else
    match lookupSecret st ns name with
    | some _ => ⟨.error .alreadyExists, st, [.kube op]⟩
    | none => ⟨.ok secret, setSecret st ns name secret, [.kube op]⟩

/-- delete_secret of main.rs: get_opt first; delete only when present. -/
def delete_secret (st : ClusterState) (fails : KubeOp → Bool) (name ns : String) :
    KubeRes Unit :=
  let gop := KubeOp.getSecret ns name
  if fails gop then ⟨.error .transient, st, [.kube gop]⟩
  else
    match lookupSecret st ns name with
    | some _ =>
      let dop := KubeOp.deleteSecret ns name
      if fails dop then ⟨.error .transient, st, [.kube gop, .kube dop]⟩
      else ⟨.ok (), removeSecret st ns name, [.kube gop, .kube dop]⟩
    | none => ⟨.ok (), st, [.kube gop]⟩

/-- Modelled from the spec: the stateful vault session wrapper
BitwardenClientWrapper (module bw is not under src/).  It owns a lazily
established reusable session; reset drops the cached session state. -/
structure BitwardenClientWrapper where
  session : Bool
deriving DecidableEq, Repr

/-- Modelled from the spec: fetchItem(path) returns the item fields as a
string keyed mapping or a descriptive error; the attempt establishes a
session.  The vault backend behaviour is the environment parameter. -/
def fetch_item (vault : String → Except String (List (String × String))) (path : String) :
    Except String (List (String × String)) × BitwardenClientWrapper × List Event :=
  (vault path, ⟨true⟩, [.vaultFetch path])

/-- Modelled from the spec: reset() drops any cached session state so the
next fetch re-authenticates from scratch. -/
def BitwardenClientWrapper.reset (_ : BitwardenClientWrapper) :
    BitwardenClientWrapper × List Event :=
  (⟨false⟩, [.vaultReset])

/-- The owner reference reconcile builds for the created secret: hardcoded
api version and kind, the resource name, the resource uid, block owner
deletion, no controller flag. -/
def ownerRef (r : BitwardenSecret) (uid : String) : OwnerReference :=
  { api_version := "tomjo.net/v1"
    kind := "BitwardenSecret"
    name := r.name_any
    uid := uid
    block_owner_deletion := some true
    controller := none }

/-- The action classification enum of main.rs. -/
inductive BitwardenSecretAction where
  | Create
  | Delete
  | NoOp
deriving DecidableEq, Repr

/-- determine_action of main.rs: Delete when a deletion timestamp is set,
else Create when the finalizer list is absent or empty, else NoOp. -/
def determine_action (r : BitwardenSecret) : BitwardenSecretAction :=
  if r.metadata.deletion_timestamp.isSome then .Delete
  else if (r.metadata.finalizers.map List.isEmpty).getD true then .Create
  else .NoOp

/-- The namespace defaulting of reconcile: metadata namespace, or the
string default when absent. -/
def effectiveNamespace (r : BitwardenSecret) : String :=
  match r.namespace? with
  | none => "default"
  | some ns => ns

/-- Everything reconcile receives from its context: cluster state, the kube
failure oracle, the vault backend and the shared vault client. -/
structure Env where
  st : ClusterState
  fails : KubeOp → Bool
  vault : String → Except String (List (String × String))
  bw : BitwardenClientWrapper

/-- Everything one reconcile invocation produces: the returned result, the
cluster state, the vault client state and the event trace. -/
structure Outcome where
  result : ReconcileResult
  st : ClusterState
  bw : BitwardenClientWrapper
  trace : List Event

/-- reconcile of main.rs.  Create path: add the finalizer, fetch the vault
item at the hardcoded path, on fetch failure reset the client, otherwise
build the owner reference (the uid expect panics when the uid is absent)
and create the secret; return requeue(10).  Delete path: delete the secret,
then delete the finalizer, return await_change.  NoOp: requeue(10). -/
def reconcile (r : BitwardenSecret) (env : Env) : Outcome :=
  match determine_action r with
  | .Create =>
    match add_finalizer env.st env.fails r.name_any (effectiveNamespace r) with
    | ⟨.error e, st1, tr1⟩ => ⟨.err (.KubeError e), st1, env.bw, tr1⟩
    | ⟨.ok _, st1, tr1⟩ =>
      let labels : List (String × String) := [("app", r.name_any)]
      match fetch_item env.vault "homelab/argo-minio" with
      | (.error _, bw1, tr2) =>
        match bw1.reset with
        | (bw2, tr3) => ⟨.ok (.requeue 10), st1, bw2, tr1 ++ tr2 ++ tr3⟩
      | (.ok secret_keys, bw1, tr2) =>
        match r.metadata.uid with
        | none =>
          ⟨.panicked ("Bitwarden secret without uid: " ++ effectiveNamespace r ++ "/" ++ r.name_any),
            st1, bw1, tr1 ++ tr2⟩
        | some uid =>
          let owner_ref : OwnerReference := ownerRef r uid
          match create_secret st1 env.fails owner_ref r.name_any (effectiveNamespace r)
              r.spec.type_ secret_keys labels with
          | ⟨.error e, st2, tr3⟩ => ⟨.err (.KubeError e), st2, bw1, tr1 ++ tr2 ++ tr3⟩
          | ⟨.ok _, st2, tr3⟩ => ⟨.ok (.requeue 10), st2, bw1, tr1 ++ tr2 ++ tr3⟩
  | .Delete =>
    match delete_secret env.st env.fails r.name_any (effectiveNamespace r) with
    | ⟨.error e, st1, tr1⟩ => ⟨.err (.KubeError e), st1, env.bw, tr1⟩
    | ⟨.ok _, st1, tr1⟩ =>
      match delete_finalizer st1 env.fails r.name_any (effectiveNamespace r) with
      | ⟨.error e, st2, tr2⟩ => ⟨.err (.KubeError e), st2, env.bw, tr1 ++ tr2⟩
      | ⟨.ok _, st2, tr2⟩ => ⟨.ok .await_change, st2, env.bw, tr1 ++ tr2⟩
  | .NoOp => ⟨.ok (.requeue 10), env.st, env.bw, []⟩

/-- on_error of main.rs: log and requeue after 5 seconds. -/
def on_error (_ : BitwardenSecret) (_ : Error) : Action :=
  .requeue 5

/-- The namespace a kube operation targets. -/
def KubeOp.opNamespace : KubeOp → String
  | .patchBitwardenSecretFinalizers ns _ _ => ns
  | .getBitwardenSecret ns _ => ns
  | .createSecret ns _ => ns
  | .getSecret ns _ => ns
  | .deleteSecret ns _ => ns

/-- The namespace an event targets, when it is a cluster API call. -/
def eventNamespace : Event → Option String
  | .kube op => some op.opNamespace
  | .vaultFetch _ => none
  | .vaultReset => none

/-- Whether an event is the finalizer-removal merge patch issued by
delete_finalizer. -/
def isFinalizerRemoval : Event → Bool
  | .kube (.patchBitwardenSecretFinalizers _ _ none) => true
  | _ => false

/-- Whether an event belongs to delete_secret (get or delete of a core
Secret). -/
def isSecretCleanupCall : Event → Bool
  | .kube (.getSecret _ _) => true
  | .kube (.deleteSecret _ _) => true
  | _ => false

theorem alistLookup_erase_self {α β : Type} [DecidableEq α] (k : α)
    (l : List (α × β)) : alistLookup k (alistErase k l) = none := by
  induction l with
  | nil => simp [alistErase, alistLookup]
  | cons p rest ih =>
    obtain ⟨k2, v⟩ := p
    by_cases h : k2 = k <;> simp [alistErase, alistLookup, h, ih]

theorem alistLookup_erase_ne {α β : Type} [DecidableEq α] {k k2 : α}
    (l : List (α × β)) (h : k ≠ k2) :
    alistLookup k (alistErase k2 l) = alistLookup k l := by
  induction l with
  | nil => simp [alistErase]
  | cons p rest ih =>
    obtain ⟨k3, v⟩ := p
    by_cases h3 : k3 = k2
    · subst h3
      simp [alistErase, alistLookup, Ne.symm h, ih]
    · by_cases h4 : k3 = k
      · subst h4
        simp [alistErase, alistLookup, h3, h]
      · simp [alistErase, alistLookup, h3, h4, ih]

theorem alistErase_cons_self {α β : Type} [DecidableEq α] (k : α) (v : β)
    (l : List (α × β)) :
    alistErase k ((k, v) :: alistErase k l) = alistErase k l := by
  induction l with
  | nil => simp [alistErase]
  | cons p rest ih =>
    obtain ⟨k2, v2⟩ := p
    by_cases h : k2 = k <;> simp_all [alistErase]

theorem lookupSecret_setRes (st : ClusterState) (ns name ns2 n2 : String)
    (r : BitwardenSecret) :
    lookupSecret (setRes st ns name r) ns2 n2 = lookupSecret st ns2 n2 := rfl

theorem lookupRes_setSecret (st : ClusterState) (ns name ns2 n2 : String)
    (s : Secret) :
    lookupRes (setSecret st ns name s) ns2 n2 = lookupRes st ns2 n2 := rfl

theorem lookupSecret_setSecret (st : ClusterState) (ns name ns2 n2 : String)
    (s : Secret) :
    lookupSecret (setSecret st ns name s) ns2 n2 =
      if (ns2, n2) = (ns, name) then some s else lookupSecret st ns2 n2 := by
  by_cases h : (ns2, n2) = (ns, name)
  · simp [lookupSecret, setSecret, alistLookup, h]
  · have h2 : ¬(ns, name) = (ns2, n2) := fun hh => h hh.symm
    simp only [lookupSecret, setSecret, alistLookup, if_neg h2, if_neg h]
    exact alistLookup_erase_ne _ h

theorem lookupSecret_removeSecret (st : ClusterState) (ns name ns2 n2 : String) :
    lookupSecret (removeSecret st ns name) ns2 n2 =
      if (ns2, n2) = (ns, name) then none else lookupSecret st ns2 n2 := by
  by_cases h : (ns2, n2) = (ns, name)
  · simp [lookupSecret, removeSecret, h, alistLookup_erase_self]
  · simp [lookupSecret, removeSecret, h, alistLookup_erase_ne _ h]

theorem add_finalizer_secrets (st : ClusterState) (fails : KubeOp → Bool)
    (name ns : String) :
    (add_finalizer st fails name ns).st.secrets = st.secrets := by
  unfold add_finalizer
  dsimp only
  repeat' split
  all_goals rfl

theorem delete_secret_resources (st : ClusterState) (fails : KubeOp → Bool)
    (name ns : String) :
    (delete_secret st fails name ns).st.resources = st.resources := by
  unfold delete_secret
  dsimp only
  repeat' split
  all_goals rfl

theorem delete_finalizer_secrets (st : ClusterState) (fails : KubeOp → Bool)
    (name ns : String) :
    (delete_finalizer st fails name ns).st.secrets = st.secrets := by
  unfold delete_finalizer
  dsimp only
  repeat' split
  all_goals rfl

/-- A convenient sample spec for concrete witnesses. -/
def sampleSpec : BitwardenSecretSpec := { path := "secret/db-creds", type_ := "Opaque" }

/-- A snapshot with a deletion timestamp and a finalizer. -/
def resDelete : BitwardenSecret :=
  { metadata :=
      { name := some "db-creds"
        namespace_ := some "app"
        deletion_timestamp := some "2026-01-01T00:00:00Z"
        finalizers := some [finalizerToken]
        uid := some "uid-1" }
    spec := sampleSpec }

/-- A fresh snapshot: no deletion timestamp, no finalizers. -/
def resCreate : BitwardenSecret :=
  { metadata :=
      { name := some "db-creds"
        namespace_ := some "app"
        uid := some "uid-1" }
    spec := sampleSpec }

/-- A snapshot with the finalizer registered and no deletion timestamp. -/
def resNoOp : BitwardenSecret :=
  { metadata :=
      { name := some "db-creds"
        namespace_ := some "app"
        finalizers := some [finalizerToken]
        uid := some "uid-1" }
    spec := sampleSpec }

/-- Claim C1: reconcile classifies every DesiredStateResource snapshot by
the ordered rule of determine_action: a set deletion timestamp gives
Delete regardless of the finalizer set; otherwise an empty or absent
finalizer set gives Create; otherwise NoOp. -/
theorem C1_classification (r : BitwardenSecret) :
    (r.metadata.deletion_timestamp.isSome = true → determine_action r = .Delete) ∧
    (r.metadata.deletion_timestamp = none →
      (r.metadata.finalizers = none ∨ r.metadata.finalizers = some []) →
      determine_action r = .Create) ∧
    (r.metadata.deletion_timestamp = none → ∀ f fs,
      r.metadata.finalizers = some (f :: fs) → determine_action r = .NoOp) := by
  refine ⟨?_, ?_, ?_⟩ <;> intro h
  · simp [determine_action, h]
  · rintro (h2 | h2) <;> simp [determine_action, h, h2]
  · intro f fs h2
    simp [determine_action, h, h2]

/-- Witness for C1 at concrete snapshots covering the three branches. -/
theorem C1_classification_witness :
    determine_action resDelete = .Delete ∧
    determine_action resCreate = .Create ∧
    determine_action resNoOp = .NoOp :=
  ⟨(C1_classification resDelete).1 rfl,
   (C1_classification resCreate).2.1 rfl (Or.inl rfl),
   (C1_classification resNoOp).2.2 rfl finalizerToken [] rfl⟩

theorem add_finalizer_eq_ok (st : ClusterState) (fails : KubeOp → Bool)
    (name ns : String) (r0 : BitwardenSecret)
    (hf : fails (.patchBitwardenSecretFinalizers ns name (some [finalizerToken])) = false)
    (hr : lookupRes st ns name = some r0) :
    add_finalizer st fails name ns =
      ⟨.ok (setFinalizers r0 (some [finalizerToken])),
        setRes st ns name (setFinalizers r0 (some [finalizerToken])),
        [.kube (.patchBitwardenSecretFinalizers ns name (some [finalizerToken]))]⟩ := by
  simp [add_finalizer, hf, hr]

/-- Claim C2: in every Create/Sync reconciliation whose vault fetch fails,
reconcile surfaces no error (requeue after 10), invokes the vault session
reset (the cached session is dropped), issues no secret create call, and
leaves the stored secrets unchanged. -/
theorem C2_vault_fetch_failure (r : BitwardenSecret) (env : Env) (e : String)
    (hact : determine_action r = .Create)
    (hf : env.fails (.patchBitwardenSecretFinalizers (effectiveNamespace r) r.name_any
        (some [finalizerToken])) = false)
    (hres : lookupRes env.st (effectiveNamespace r) r.name_any ≠ none)
    (hv : env.vault "homelab/argo-minio" = .error e) :
    (reconcile r env).result = .ok (.requeue 10) ∧
    Event.vaultReset ∈ (reconcile r env).trace ∧
    (reconcile r env).bw.session = false ∧
    (∀ ns n, Event.kube (KubeOp.createSecret ns n) ∉ (reconcile r env).trace) ∧
    (reconcile r env).st.secrets = env.st.secrets := by
  obtain ⟨r0, hr0⟩ := Option.ne_none_iff_exists'.mp hres
  have haf := add_finalizer_eq_ok env.st env.fails r.name_any (effectiveNamespace r) r0 hf hr0
  unfold reconcile
  rw [hact, haf]
  simp [fetch_item, hv, BitwardenClientWrapper.reset, setRes]

/-- A cluster holding resCreate, a vault that always fails, no injected
kube failures. -/
def envC2 : Env :=
  { st := { resources := [(("app", "db-creds"), resCreate)], secrets := [] }
    fails := fun _ => false
    vault := fun _ => .error "bw CLI failure"
    bw := ⟨true⟩ }

/-- Witness for C2 at a concrete failing vault. -/
theorem C2_vault_fetch_failure_witness :
    (reconcile resCreate envC2).result = .ok (.requeue 10) ∧
    Event.vaultReset ∈ (reconcile resCreate envC2).trace ∧
    (reconcile resCreate envC2).bw.session = false ∧
    Event.kube (KubeOp.createSecret "app" "db-creds") ∉ (reconcile resCreate envC2).trace ∧
    (reconcile resCreate envC2).st.secrets = envC2.st.secrets := by
  have h := C2_vault_fetch_failure resCreate envC2 "bw CLI failure" rfl rfl (by decide) rfl
  exact ⟨h.1, h.2.1, h.2.2.1, h.2.2.2.1 "app" "db-creds", h.2.2.2.2⟩

theorem delete_secret_trace_clean (st : ClusterState) (fails : KubeOp → Bool)
    (name ns : String) :
    ∀ ev ∈ (delete_secret st fails name ns).trace, isFinalizerRemoval ev = false := by
  unfold delete_secret
  dsimp only
  repeat' split
  all_goals simp [isFinalizerRemoval]

/-- Claim C3: in the Delete path the finalizer-removal patch is never
issued before delete_secret has completed successfully: when delete_secret
fails, reconcile returns the error, no removal patch appears in the trace
and the stored resources (hence the finalizer set) are unchanged; when both
cleanup steps succeed the directive is await_change; and the whole trace is
the delete_secret trace (which contains no removal patch) followed by the
delete_finalizer part. -/
theorem C3_delete_ordering (r : BitwardenSecret) (env : Env)
    (hact : determine_action r = .Delete) :
    (∀ e, (delete_secret env.st env.fails r.name_any (effectiveNamespace r)).result = .error e →
      (reconcile r env).result = .err (.KubeError e) ∧
      (∀ ev ∈ (reconcile r env).trace, isFinalizerRemoval ev = false) ∧
      (reconcile r env).st.resources = env.st.resources) ∧
    ((delete_secret env.st env.fails r.name_any (effectiveNamespace r)).result = .ok () →
      (delete_finalizer (delete_secret env.st env.fails r.name_any (effectiveNamespace r)).st
        env.fails r.name_any (effectiveNamespace r)).result = .ok () →
      (reconcile r env).result = .ok .await_change) ∧
    (∃ rest, (reconcile r env).trace =
        (delete_secret env.st env.fails r.name_any (effectiveNamespace r)).trace ++ rest ∧
      ∀ ev ∈ (delete_secret env.st env.fails r.name_any (effectiveNamespace r)).trace,
        isFinalizerRemoval ev = false) := by
  have hclean := delete_secret_trace_clean env.st env.fails r.name_any (effectiveNamespace r)
  have hresources := delete_secret_resources env.st env.fails r.name_any (effectiveNamespace r)
  unfold reconcile
  rw [hact]
  rcases hds : delete_secret env.st env.fails r.name_any (effectiveNamespace r) with ⟨res, st1, tr1⟩
  rw [hds] at hclean hresources
  dsimp only at hclean hresources ⊢
  match res with
  | .error e =>
    refine ⟨?_, ?_, ?_⟩
    · intro e2 he2
      cases he2
      exact ⟨rfl, hclean, hresources⟩
    · intro h
      cases h
    · exact ⟨[], by simp, hclean⟩
  | .ok () =>
    refine ⟨?_, ?_, ?_⟩
    · intro e2 he2
      cases he2
    · intro _ hdf
      rcases hdf2 : delete_finalizer st1 env.fails r.name_any (effectiveNamespace r)
        with ⟨res2, st2, tr2⟩
      rw [hdf2] at hdf
      dsimp only at hdf
      subst hdf
      dsimp only
      rw [hdf2]
    · rcases hdf2 : delete_finalizer st1 env.fails r.name_any (effectiveNamespace r)
        with ⟨res2, st2, tr2⟩
      dsimp only
      rw [hdf2]
      cases res2 <;> exact ⟨tr2, rfl, hclean⟩

/-- A cluster where resDelete and its secret exist but the secret delete
call fails transiently. -/
def envC3fail : Env :=
  { st :=
      { resources := [(("app", "db-creds"), resDelete)]
        secrets := [(("app", "db-creds"),
          { metadata := { name := some "db-creds", namespace_ := some "app" }
            string_data := some [("user", "u")]
            type_ := some "Opaque" })] }
    fails := fun op => match op with
      | .deleteSecret _ _ => true
      | _ => false
    vault := fun _ => .ok [("user", "u")]
    bw := ⟨true⟩ }

/-- The same cluster with no injected failures. -/
def envC3ok : Env :=
  { st := envC3fail.st
    fails := fun _ => false
    vault := envC3fail.vault
    bw := ⟨true⟩ }

/-- Witness for C3: with a failing secret delete the error is surfaced and
no removal patch is issued; with everything succeeding the directive is
await_change. -/
theorem C3_delete_ordering_witness :
    ((reconcile resDelete envC3fail).result = .err (.KubeError .transient) ∧
      (∀ ev ∈ (reconcile resDelete envC3fail).trace, isFinalizerRemoval ev = false) ∧
      (reconcile resDelete envC3fail).st.resources = envC3fail.st.resources) ∧
    (reconcile resDelete envC3ok).result = .ok .await_change := by
  have h1 := C3_delete_ordering resDelete envC3fail rfl
  have h2 := C3_delete_ordering resDelete envC3ok rfl
  exact ⟨h1.1 .transient rfl, h2.2.1 rfl rfl⟩

theorem create_secret_cases (st : ClusterState) (fails : KubeOp → Bool)
    (oref : OwnerReference) (name ns type_ : String)
    (keys labels : List (String × String)) :
    (∃ e, create_secret st fails oref name ns type_ keys labels =
      ⟨.error e, st, [.kube (.createSecret ns name)]⟩) ∨
    (∃ s2, create_secret st fails oref name ns type_ keys labels =
        ⟨.ok s2, setSecret st ns name s2, [.kube (.createSecret ns name)]⟩ ∧
      s2.metadata.owner_references = some [oref]) := by
  unfold create_secret
  dsimp only
  split
  · exact Or.inl ⟨.transient, rfl⟩
  · split
    · exact Or.inl ⟨.alreadyExists, rfl⟩
    · exact Or.inr ⟨_, rfl, rfl⟩

theorem delete_secret_secrets_cases (st : ClusterState) (fails : KubeOp → Bool)
    (name ns : String) :
    (delete_secret st fails name ns).st.secrets = st.secrets ∨
    (delete_secret st fails name ns).st.secrets = alistErase (ns, name) st.secrets := by
  unfold delete_secret
  dsimp only
  repeat' split
  all_goals simp [removeSecret]

/-- Claim C4: every TargetSecret created by a reconcile run (absent before,
present after) carries exactly one OwnerReference, and its UID is the UID
of the source DesiredStateResource at creation time. -/
theorem C4_owner_reference (r : BitwardenSecret) (env : Env) (ns n : String) (s : Secret)
    (hbefore : lookupSecret env.st ns n = none)
    (hafter : lookupSecret (reconcile r env).st ns n = some s) :
    ∃ u, r.metadata.uid = some u ∧
      s.metadata.owner_references = some [ownerRef r u] := by
  unfold reconcile at hafter
  cases hact : determine_action r with
  | NoOp =>
    rw [hact] at hafter
    dsimp only at hafter
    exact Option.noConfusion (hbefore.symm.trans hafter)
  | Delete =>
    rw [hact] at hafter
    dsimp only at hafter
    rcases hds : delete_secret env.st env.fails r.name_any (effectiveNamespace r)
      with ⟨res1, st1, tr1⟩
    have h1 : st1.secrets = env.st.secrets ∨
        st1.secrets = alistErase (effectiveNamespace r, r.name_any) env.st.secrets := by
      have h2 := delete_secret_secrets_cases env.st env.fails r.name_any (effectiveNamespace r)
      rw [hds] at h2
      exact h2
    have hlook1 : lookupSecret st1 ns n = none := by
      unfold lookupSecret at hbefore ⊢
      rcases h1 with h1 | h1 <;> rw [h1]
      · exact hbefore
      · by_cases hk : (ns, n) = (effectiveNamespace r, r.name_any)
        · rw [hk]
          exact alistLookup_erase_self _ _
        · rw [alistLookup_erase_ne _ hk]
          exact hbefore
    rw [hds] at hafter
    cases res1 with
    | error e => exact Option.noConfusion (hlook1.symm.trans hafter)
    | ok u1 =>
      dsimp only at hafter
      rcases hdf : delete_finalizer st1 env.fails r.name_any (effectiveNamespace r)
        with ⟨res2, st2, tr2⟩
      have h2 : st2.secrets = st1.secrets := by
        have h3 := delete_finalizer_secrets st1 env.fails r.name_any (effectiveNamespace r)
        rw [hdf] at h3
        exact h3
      have hlook2 : lookupSecret st2 ns n = none := by
        unfold lookupSecret at hlook1 ⊢
        rw [h2]
        exact hlook1
      rw [hdf] at hafter
      cases res2 <;> dsimp only at hafter <;>
        exact Option.noConfusion (hlook2.symm.trans hafter)
  | Create =>
    rw [hact] at hafter
    dsimp only at hafter
    rcases haf : add_finalizer env.st env.fails r.name_any (effectiveNamespace r)
      with ⟨res1, st1, tr1⟩
    have h1 : st1.secrets = env.st.secrets := by
      have h2 := add_finalizer_secrets env.st env.fails r.name_any (effectiveNamespace r)
      rw [haf] at h2
      exact h2
    have hlook1 : lookupSecret st1 ns n = none := by
      unfold lookupSecret at hbefore ⊢
      rw [h1]
      exact hbefore
    rw [haf] at hafter
    cases res1 with
    | error e => exact Option.noConfusion (hlook1.symm.trans hafter)
    | ok r1 =>
      dsimp only at hafter
      unfold fetch_item at hafter
      cases hv : env.vault "homelab/argo-minio" with
      | error e2 =>
        rw [hv] at hafter
        dsimp only at hafter
        exact Option.noConfusion (hlook1.symm.trans hafter)
      | ok keys =>
        rw [hv] at hafter
        dsimp only at hafter
        cases hu : r.metadata.uid with
        | none =>
          rw [hu] at hafter
          dsimp only at hafter
          exact Option.noConfusion (hlook1.symm.trans hafter)
        | some u =>
          rw [hu] at hafter
          dsimp only at hafter
          rcases create_secret_cases st1 env.fails (ownerRef r u) r.name_any
              (effectiveNamespace r) r.spec.type_ keys [("app", r.name_any)]
            with ⟨e3, hcs⟩ | ⟨s2, hcs, hor⟩
          · rw [hcs] at hafter
            dsimp only at hafter
            exact Option.noConfusion (hlook1.symm.trans hafter)
          · rw [hcs] at hafter
            dsimp only at hafter
            rw [lookupSecret_setSecret] at hafter
            by_cases hk : (ns, n) = (effectiveNamespace r, r.name_any)
            · rw [if_pos hk] at hafter
              injection hafter with hs
              subst hs
              exact ⟨u, rfl, hor⟩
            · rw [if_neg hk] at hafter
              exact Option.noConfusion (hlook1.symm.trans hafter)

/-- A cluster holding resCreate and no secrets, a healthy vault, no
injected kube failures. -/
def envC4 : Env :=
  { st := { resources := [(("app", "db-creds"), resCreate)], secrets := [] }
    fails := fun _ => false
    vault := fun _ => .ok [("user", "u"), ("pass", "p")]
    bw := ⟨false⟩ }

/-- The secret reconcile creates for resCreate in envC4. -/
def secC4 : Secret :=
  { metadata :=
      { name := some "db-creds"
        namespace_ := some "app"
        labels := some [("app", "db-creds")]
        owner_references := some [ownerRef resCreate "uid-1"] }
    string_data := some [("user", "u"), ("pass", "p")]
    type_ := some "Opaque" }

/-- Witness for C4 at a concrete successful Create/Sync run. -/
theorem C4_owner_reference_witness :
    ∃ u, resCreate.metadata.uid = some u ∧
      secC4.metadata.owner_references = some [ownerRef resCreate u] :=
  C4_owner_reference resCreate envC4 "app" "db-creds" secC4 rfl rfl

/-- Claim C5 fails on the code: the path passed to the vault fetch is the
hardcoded string homelab/argo-minio, not the vault item path configured on
the reconciled resource.  At a resource whose configured path is
secret/db-creds, the reconcile trace fetches homelab/argo-minio and never
the configured path. -/
theorem C5_hardcoded_fetch_path :
    resCreate.spec.path = "secret/db-creds" ∧
    (reconcile resCreate envC4).trace =
      [.kube (.patchBitwardenSecretFinalizers "app" "db-creds" (some [finalizerToken])),
       .vaultFetch "homelab/argo-minio",
       .kube (.createSecret "app" "db-creds")] ∧
    Event.vaultFetch resCreate.spec.path ∉ (reconcile resCreate envC4).trace := by
  decide

/-- A resource reaching the Create path with no uid. -/
def resNoUid : BitwardenSecret :=
  { metadata := { name := some "db-creds", namespace_ := some "app" }
    spec := sampleSpec }

/-- A cluster holding resNoUid, a healthy vault, no injected failures. -/
def envC6 : Env :=
  { st := { resources := [(("app", "db-creds"), resNoUid)], secrets := [] }
    fails := fun _ => false
    vault := fun _ => .ok [("user", "u")]
    bw := ⟨false⟩ }

/-- Claim C6 fails on the code: a Create/Sync reconcile of a resource
without a uid, after a successful vault fetch, terminates abnormally (the
uid expect panics) rather than returning the distinct user input error
kind. -/
theorem C6_missing_uid_panics :
    (reconcile resNoUid envC6).result =
      .panicked "Bitwarden secret without uid: app/db-creds" ∧
    ∀ m, (reconcile resNoUid envC6).result ≠ .err (.UserInputError m) := by
  have h0 : (reconcile resNoUid envC6).result =
      .panicked "Bitwarden secret without uid: app/db-creds" := by decide
  refine ⟨h0, fun m h => ?_⟩
  exact ReconcileResult.noConfusion (h0.symm.trans h)

/-- The partial state of C7: the finalizer has been added to the resource
but the target secret was never created. -/
def envC7 : Env :=
  { st := { resources := [(("app", "db-creds"), resNoOp)], secrets := [] }
    fails := fun _ => false
    vault := fun _ => .ok [("user", "u")]
    bw := ⟨true⟩ }

/-- Counterexample to claim C7: from the partial state (finalizer present,
secret absent, vault now healthy) the next reconciliation issues no calls
and creates no target secret; the whole cluster state is unchanged, so no
later reconciliation of the unchanged resource creates it either. -/
theorem C7_counterexample :
    lookupSecret envC7.st "app" "db-creds" = none ∧
    resNoOp.metadata.finalizers = some [finalizerToken] ∧
    resNoOp.metadata.deletion_timestamp = none ∧
    (reconcile resNoOp envC7).trace = [] ∧
    (reconcile resNoOp envC7).st = envC7.st ∧
    lookupSecret (reconcile resNoOp envC7).st "app" "db-creds" = none := by
  decide

/-- Claim C7 amended: when the finalizer has been added (finalizer set
non-empty) and no deletion is requested, the next reconciliation is a
NoOp: it issues no calls, returns requeue(10), and leaves the cluster
state and vault client unchanged, so the partial intermediate state
persists instead of being corrected. -/
theorem C7_partial_state_persists (r : BitwardenSecret) (env : Env)
    (f : String) (fs : List String)
    (hts : r.metadata.deletion_timestamp = none)
    (hfin : r.metadata.finalizers = some (f :: fs)) :
    (reconcile r env).result = .ok (.requeue 10) ∧
    (reconcile r env).trace = [] ∧
    (reconcile r env).st = env.st ∧
    (reconcile r env).bw = env.bw := by
  have hact : determine_action r = .NoOp := by
    simp [determine_action, hts, hfin]
  unfold reconcile
  rw [hact]
  exact ⟨rfl, rfl, rfl, rfl⟩

/-- Witness for the amended C7 at the concrete partial state. -/
theorem C7_partial_state_persists_witness :
    (reconcile resNoOp envC7).result = .ok (.requeue 10) ∧
    (reconcile resNoOp envC7).trace = [] ∧
    (reconcile resNoOp envC7).st = envC7.st ∧
    (reconcile resNoOp envC7).bw = envC7.bw :=
  C7_partial_state_persists resNoOp envC7 finalizerToken [] rfl rfl

theorem setFinalizers_idem (r : BitwardenSecret) (v w : Option (List String)) :
    setFinalizers (setFinalizers r v) w = setFinalizers r w := rfl

theorem lookupRes_setRes_self (st : ClusterState) (ns name : String)
    (r : BitwardenSecret) :
    lookupRes (setRes st ns name r) ns name = some r := by
  simp [lookupRes, setRes, alistLookup]

theorem setRes_setRes (st : ClusterState) (ns name : String)
    (r r2 : BitwardenSecret) :
    setRes (setRes st ns name r) ns name r2 = setRes st ns name r2 := by
  simp [setRes, alistErase_cons_self]

/-- Claim C8: add_finalizer unconditionally issues a single merge patch
setting the finalizer set to exactly [finalizerToken] (its trace is that
one patch on any state, no existence check), and it is idempotent: on an
existing resource it yields a resource whose finalizer set is
[finalizerToken], and invoking it again on the resulting state leaves the
state (hence the finalizer set) exactly as after one invocation. -/
theorem C8_add_finalizer_idempotent (st : ClusterState) (fails : KubeOp → Bool)
    (name ns : String) (r0 : BitwardenSecret)
    (hf : fails (.patchBitwardenSecretFinalizers ns name (some [finalizerToken])) = false)
    (hr : lookupRes st ns name = some r0) :
    (∀ st2 : ClusterState, (add_finalizer st2 fails name ns).trace =
      [.kube (.patchBitwardenSecretFinalizers ns name (some [finalizerToken]))]) ∧
    (∃ r1, (add_finalizer st fails name ns).result = .ok r1 ∧
      r1.metadata.finalizers = some [finalizerToken]) ∧
    (add_finalizer (add_finalizer st fails name ns).st fails name ns).st =
      (add_finalizer st fails name ns).st := by
  have h1 := add_finalizer_eq_ok st fails name ns r0 hf hr
  refine ⟨?_, ?_, ?_⟩
  · intro st2
    unfold add_finalizer
    dsimp only
    repeat' split
    all_goals rfl
  · rw [h1]
    exact ⟨_, rfl, rfl⟩
  · rw [h1]
    dsimp only
    have h2 := add_finalizer_eq_ok
      (setRes st ns name (setFinalizers r0 (some [finalizerToken]))) fails name ns
      (setFinalizers r0 (some [finalizerToken])) hf (lookupRes_setRes_self _ _ _ _)
    rw [h2]
    dsimp only
    rw [setFinalizers_idem, setRes_setRes]

/-- Witness for C8 at the concrete cluster envC4. -/
theorem C8_add_finalizer_idempotent_witness :
    (∀ st2 : ClusterState, (add_finalizer st2 (fun _ => false) "db-creds" "app").trace =
      [.kube (.patchBitwardenSecretFinalizers "app" "db-creds" (some [finalizerToken]))]) ∧
    (∃ r1, (add_finalizer envC4.st (fun _ => false) "db-creds" "app").result = .ok r1 ∧
      r1.metadata.finalizers = some [finalizerToken]) ∧
    (add_finalizer (add_finalizer envC4.st (fun _ => false) "db-creds" "app").st
        (fun _ => false) "db-creds" "app").st =
      (add_finalizer envC4.st (fun _ => false) "db-creds" "app").st :=
  C8_add_finalizer_idempotent envC4.st (fun _ => false) "db-creds" "app" resCreate rfl rfl

/-- Counterexample to claim C9: a resource that exists but carries no
finalizer is still patched — after the existence check, delete_finalizer
issues the null merge patch, contradicting succeeds-without-issuing-a-patch
for resources carrying no finalizer. -/
theorem C9_counterexample :
    resCreate.metadata.finalizers = none ∧
    lookupRes envC4.st "app" "db-creds" = some resCreate ∧
    (delete_finalizer envC4.st (fun _ => false) "db-creds" "app").result = .ok () ∧
    Event.kube (.patchBitwardenSecretFinalizers "app" "db-creds" none) ∈
      (delete_finalizer envC4.st (fun _ => false) "db-creds" "app").trace :=
  ⟨rfl, rfl, rfl, by decide⟩

/-- Claim C9 amended: delete_finalizer checks existence first; on a
resource that no longer exists it succeeds without error and without
issuing a patch; on every existing resource — whether or not it carries a
finalizer — it issues the merge patch setting the finalizer set to null
and succeeds, leaving the resource with no finalizers. -/
theorem C9_delete_finalizer (st : ClusterState) (fails : KubeOp → Bool) (name ns : String)
    (hok : ∀ op, fails op = false) :
    (lookupRes st ns name = none →
      (delete_finalizer st fails name ns).result = .ok () ∧
      (delete_finalizer st fails name ns).trace = [.kube (.getBitwardenSecret ns name)] ∧
      (delete_finalizer st fails name ns).st = st) ∧
    (∀ r0, lookupRes st ns name = some r0 →
      (delete_finalizer st fails name ns).result = .ok () ∧
      (delete_finalizer st fails name ns).trace =
        [.kube (.getBitwardenSecret ns name),
         .kube (.patchBitwardenSecretFinalizers ns name none)] ∧
      lookupRes (delete_finalizer st fails name ns).st ns name =
        some (setFinalizers r0 none)) := by
  constructor
  · intro h
    simp [delete_finalizer, hok, h]
  · intro r0 h
    simp [delete_finalizer, hok, h, lookupRes_setRes_self]

/-- Witness for the amended C9: a nonexistent resource and an existing
finalizer-free resource. -/
theorem C9_delete_finalizer_witness :
    ((delete_finalizer ⟨[], []⟩ (fun _ => false) "db-creds" "app").result = .ok () ∧
      (delete_finalizer ⟨[], []⟩ (fun _ => false) "db-creds" "app").trace =
        [.kube (.getBitwardenSecret "app" "db-creds")] ∧
      (delete_finalizer ⟨[], []⟩ (fun _ => false) "db-creds" "app").st = ⟨[], []⟩) ∧
    ((delete_finalizer envC4.st (fun _ => false) "db-creds" "app").result = .ok () ∧
      (delete_finalizer envC4.st (fun _ => false) "db-creds" "app").trace =
        [.kube (.getBitwardenSecret "app" "db-creds"),
         .kube (.patchBitwardenSecretFinalizers "app" "db-creds" none)] ∧
      lookupRes (delete_finalizer envC4.st (fun _ => false) "db-creds" "app").st
        "app" "db-creds" = some (setFinalizers resCreate none)) :=
  ⟨(C9_delete_finalizer ⟨[], []⟩ (fun _ => false) "db-creds" "app" (fun _ => rfl)).1 rfl,
   (C9_delete_finalizer envC4.st (fun _ => false) "db-creds" "app" (fun _ => rfl)).2
     resCreate rfl⟩

theorem add_finalizer_trace_ns (st : ClusterState) (fails : KubeOp → Bool)
    (name ns : String) :
    ∀ e ∈ (add_finalizer st fails name ns).trace, ∀ n2,
      eventNamespace e = some n2 → n2 = ns := by
  unfold add_finalizer
  dsimp only
  repeat' split
  all_goals simp [eventNamespace, KubeOp.opNamespace]

theorem delete_finalizer_trace_ns (st : ClusterState) (fails : KubeOp → Bool)
    (name ns : String) :
    ∀ e ∈ (delete_finalizer st fails name ns).trace, ∀ n2,
      eventNamespace e = some n2 → n2 = ns := by
  unfold delete_finalizer
  dsimp only
  repeat' split
  all_goals simp [eventNamespace, KubeOp.opNamespace]

theorem delete_secret_trace_ns (st : ClusterState) (fails : KubeOp → Bool)
    (name ns : String) :
    ∀ e ∈ (delete_secret st fails name ns).trace, ∀ n2,
      eventNamespace e = some n2 → n2 = ns := by
  unfold delete_secret
  dsimp only
  repeat' split
  all_goals simp [eventNamespace, KubeOp.opNamespace]

theorem create_secret_trace_ns (st : ClusterState) (fails : KubeOp → Bool)
    (oref : OwnerReference) (name ns type_ : String)
    (keys labels : List (String × String)) :
    ∀ e ∈ (create_secret st fails oref name ns type_ keys labels).trace, ∀ n2,
      eventNamespace e = some n2 → n2 = ns := by
  unfold create_secret
  dsimp only
  repeat' split
  all_goals simp [eventNamespace, KubeOp.opNamespace]

/-- Every cluster API call a reconcile run issues targets the effective
namespace of the reconciled resource. -/
theorem reconcile_trace_ns (r : BitwardenSecret) (env : Env) :
    ∀ e ∈ (reconcile r env).trace, ∀ n2,
      eventNamespace e = some n2 → n2 = effectiveNamespace r := by
  unfold reconcile
  cases determine_action r with
  | NoOp => simp
  | Delete =>
    rcases hds : delete_secret env.st env.fails r.name_any (effectiveNamespace r)
      with ⟨res1, st1, tr1⟩
    have h1 := delete_secret_trace_ns env.st env.fails r.name_any (effectiveNamespace r)
    rw [hds] at h1
    cases res1 with
    | error e =>
      dsimp only
      exact h1
    | ok u =>
      dsimp only
      rcases hdf : delete_finalizer st1 env.fails r.name_any (effectiveNamespace r)
        with ⟨res2, st2, tr2⟩
      have h2 := delete_finalizer_trace_ns st1 env.fails r.name_any (effectiveNamespace r)
      rw [hdf] at h2
      cases res2 <;> dsimp only <;> intro e he n2 hev <;>
        rcases List.mem_append.mp he with he | he
      · exact h1 e he n2 hev
      · exact h2 e he n2 hev
      · exact h1 e he n2 hev
      · exact h2 e he n2 hev
  | Create =>
    rcases haf : add_finalizer env.st env.fails r.name_any (effectiveNamespace r)
      with ⟨res1, st1, tr1⟩
    have h1 := add_finalizer_trace_ns env.st env.fails r.name_any (effectiveNamespace r)
    rw [haf] at h1
    cases res1 with
    | error e =>
      dsimp only
      exact h1
    | ok r1 =>
      dsimp only
      unfold fetch_item
      cases hv : env.vault "homelab/argo-minio" with
      | error e2 =>
        dsimp only [BitwardenClientWrapper.reset]
        intro e he n2 hev
        rcases List.mem_append.mp he with he | he
        · rcases List.mem_append.mp he with he | he
          · exact h1 e he n2 hev
          · simp only [List.mem_singleton] at he
            subst he
            exact Option.noConfusion hev
        · simp only [List.mem_singleton] at he
          subst he
          exact Option.noConfusion hev
      | ok keys =>
        cases r.metadata.uid with
        | none =>
          dsimp only
          intro e he n2 hev
          rcases List.mem_append.mp he with he | he
          · exact h1 e he n2 hev
          · simp only [List.mem_singleton] at he
            subst he
            exact Option.noConfusion hev
        | some u =>
          dsimp only
          rcases hcs : create_secret st1 env.fails (ownerRef r u) r.name_any
              (effectiveNamespace r) r.spec.type_ keys [("app", r.name_any)]
            with ⟨res3, st3, tr3⟩
          have h3 := create_secret_trace_ns st1 env.fails (ownerRef r u) r.name_any
            (effectiveNamespace r) r.spec.type_ keys [("app", r.name_any)]
          rw [hcs] at h3
          cases res3 <;> dsimp only <;> intro e he n2 hev <;>
            rcases List.mem_append.mp he with he | he
          · rcases List.mem_append.mp he with he | he
            · exact h1 e he n2 hev
            · simp only [List.mem_singleton] at he
              subst he
              exact Option.noConfusion hev
          · exact h3 e he n2 hev
          · rcases List.mem_append.mp he with he | he
            · exact h1 e he n2 hev
            · simp only [List.mem_singleton] at he
              subst he
              exact Option.noConfusion hev
          · exact h3 e he n2 hev

/-- Claim C10: when the namespace field is absent, reconcile does not fail
on that account: it behaves exactly as it does on the same resource with
namespace default, and every cluster API call it issues targets namespace
default. -/
theorem C10_default_namespace (r : BitwardenSecret) (env : Env)
    (h : r.metadata.namespace_ = none) :
    reconcile r env =
      reconcile { r with metadata := { r.metadata with namespace_ := some "default" } } env ∧
    ∀ e ∈ (reconcile r env).trace, ∀ n2, eventNamespace e = some n2 → n2 = "default" := by
  have hns : effectiveNamespace r = "default" := by
    simp [effectiveNamespace, BitwardenSecret.namespace?, h]
  constructor
  · obtain ⟨⟨nm, nsp, ts, fin, u, lab, orefs⟩, spc⟩ := r
    dsimp only at h
    subst h
    rfl
  · have htr := reconcile_trace_ns r env
    rw [hns] at htr
    exact htr

/-- A resource without a namespace. -/
def resNoNs : BitwardenSecret :=
  { metadata := { name := some "db-creds", uid := some "uid-1" }
    spec := sampleSpec }

/-- A cluster holding resNoNs under namespace default. -/
def envC10 : Env :=
  { st := { resources := [(("default", "db-creds"), resNoNs)], secrets := [] }
    fails := fun _ => false
    vault := fun _ => .ok [("user", "u")]
    bw := ⟨false⟩ }

/-- Witness for C10 at a concrete namespace-less resource. -/
theorem C10_default_namespace_witness :
    reconcile resNoNs envC10 =
      reconcile { resNoNs with metadata :=
        { resNoNs.metadata with namespace_ := some "default" } } envC10 :=
  (C10_default_namespace resNoNs envC10 rfl).1

end BwOperator
